import Mathlib

/-!
Verification of the MPS7 binary transaction-log parser (`src/proto.py`).

The Python source is shallowly embedded here:
* a byte buffer is a `List Nat` (each entry one byte value);
* a Python slice `buf[a:b]` is `pySlice buf a b` (clamping, like Python);
* `struct.unpack` with a big-endian format is modelled by an exact length
  check on the slice followed by big-endian decoding (`beVal`); a length
  mismatch raises `struct.error`, modelled as `ParseError.structError`;
* the `RECORD_TYPES` dictionary lookup is `RECORD_TYPES : Nat → Option
  RecordType`; a missing key raises `KeyError`, modelled as
  `ParseError.keyError tag` (the exception carries the offending key);
* the pandas `DataFrame` accumulated row by row is modelled as a
  `List Record` in file order; column masks become `List.filter`,
  `.sum()` over the `Dollar Amount` column becomes a sum over the list
  with missing (`None`) amounts skipped, and `.count()` becomes `length`;
  `total_transaction_amount` idealizes that sum as exact rational
  addition, while `total_transaction_amount_fp64` keeps the sequential
  binary64 rounding (`fp64Round`) the program's float sum performs,
  which is what makes its result order-dependent;
* a 64-bit IEEE-754 double is represented by the exact rational value of
  its bit pattern (`f64FromBits`); every finite double is a rational, so
  this is exact for finite values (Inf/NaN bit patterns, which no claim
  exercises, fall outside the rational model and are mapped to 0);
* Python `round(x, 2)` (round-half-to-even at two decimal places) is
  `round2` on rationals.
-/

/-- Error taxonomy of the decoder, following the exceptions the Python code
can actually raise: `struct.error` (a slice shorter than the fixed-width
format requires) and `KeyError` (a record-kind tag absent from the
`RECORD_TYPES` dictionary; the exception carries the offending tag byte). -/
inductive ParseError where
  | structError : ParseError
  | keyError : Nat → ParseError
deriving DecidableEq, Repr

/-- Record kinds: the closed set of values of the `RECORD_TYPES` dictionary. -/
inductive RecordType where
  | Debit
  | Credit
  | StartAutopay
  | EndAutopay
deriving DecidableEq, Repr

def DEBIT : RecordType := RecordType.Debit
def CREDIT : RecordType := RecordType.Credit
def START : RecordType := RecordType.StartAutopay
def END : RecordType := RecordType.EndAutopay

def HEADER_LENGTH : Nat := 9
def BASE_RECORD_LENGTH : Nat := 13
def DOLLAR_AMOUNT_LENGTH : Nat := 8

/-- The `RECORD_TYPES` dictionary: tag byte to record kind. -/
def RECORD_TYPES : Nat → Option RecordType
  | 0 => some DEBIT
  | 1 => some CREDIT
  | 2 => some START
  | 3 => some END
  | _ => none

/-- One decoded row of the transactions table: record type, timestamp,
user id, and the optional dollar amount (`None` for autopay records). -/
structure Record where
  recordType : RecordType
  timestamp : Nat
  user_id : Nat
  amount : Option ℚ
deriving DecidableEq, Repr

/-- Python slice `buf[a:b]` (clamps at the ends, never fails). -/
def pySlice (buf : List Nat) (a b : Nat) : List Nat :=
  (buf.drop a).take (b - a)

/-- Big-endian value of a byte list (most significant byte first). -/
def beVal (l : List Nat) : Nat :=
  l.foldl (fun acc b => acc * 256 + b) 0

/-- Exact rational value of a 64-bit IEEE-754 double given its bit pattern
(big-endian u64 of the 8 amount bytes).  Finite doubles are decoded
exactly; Inf/NaN bit patterns (exponent 2047) have no rational value and
are mapped to 0 — no claim evaluates the decoder there. -/
def f64FromBits (b : Nat) : ℚ :=
  let sign : ℚ := if b / 2 ^ 63 % 2 = 1 then -1 else 1
  let expo : Nat := b / 2 ^ 52 % 2 ^ 11
  let frac : Nat := b % 2 ^ 52
  if expo = 0 then sign * frac * (2 : ℚ) ^ (-(1074 : ℤ))
  else if expo = 2047 then 0
  else sign * ((2 : ℚ) ^ 52 + frac) * (2 : ℚ) ^ ((expo : ℤ) - 1075)

/-- `struct.unpack(HEADER_FORMAT, transaction_log[0:HEADER_LENGTH])`:
the 4-byte format tag, the 1-byte version, and the big-endian u32 record
count.  `struct.error` if the slice is not exactly 9 bytes. -/
def unpackHeader (transaction_log : List Nat) :
    Except ParseError (List Nat × Nat × Nat) :=
  let s := pySlice transaction_log 0 HEADER_LENGTH
  if s.length = HEADER_LENGTH then
    .ok (s.take 4, s.getD 4 0, beVal ((s.drop 5).take 4))
  else
    .error .structError

/-- One iteration of the record loop of `parse_logfile`, starting at byte
offset `record_start`: unpack the 13-byte base record (`struct.error` if
short), look the tag up in `RECORD_TYPES` (`KeyError` if absent), and for
Debit/Credit unpack the further 8-byte big-endian double.  Returns the
decoded `Record` together with the offset just past it. -/
def parseRecord (transaction_log : List Nat) (record_start : Nat) :
    Except ParseError (Record × Nat) :=
  let record_stop := record_start + BASE_RECORD_LENGTH
  let s := pySlice transaction_log record_start record_stop
  if s.length = BASE_RECORD_LENGTH then
    let record_type_enum := s.getD 0 0
    let timestamp := beVal ((s.drop 1).take 4)
    let user_id := beVal (s.drop 5)
    match RECORD_TYPES record_type_enum with
    | none => .error (.keyError record_type_enum)
    | some record_type =>
      if record_type = DEBIT ∨ record_type = CREDIT then
        let s2 := pySlice transaction_log record_stop
          (record_stop + DOLLAR_AMOUNT_LENGTH)
        if s2.length = DOLLAR_AMOUNT_LENGTH then
          .ok ({ recordType := record_type, timestamp := timestamp,
                 user_id := user_id, amount := some (f64FromBits (beVal s2)) },
               record_stop + DOLLAR_AMOUNT_LENGTH)
        else
          .error .structError
      else
        .ok ({ recordType := record_type, timestamp := timestamp,
               user_id := user_id, amount := none }, record_stop)
  else
    .error .structError

/-- The record loop of `parse_logfile`: decode the given number of records
starting at `record_start`, in file order, returning them together with
the final offset.  Any per-record failure aborts the whole loop. -/
def parseRecords (transaction_log : List Nat) :
    Nat → Nat → Except ParseError (List Record × Nat)
  | record_start, 0 => .ok ([], record_start)
  | record_start, n + 1 =>
    match parseRecord transaction_log record_start with
    | .error e => .error e
    | .ok (r, stop) =>
      match parseRecords transaction_log stop n with
      | .error e => .error e
      | .ok (rs, p) => .ok (r :: rs, p)

/-- `parse_logfile` on the byte content of the log file: unpack the
header, then run the record loop `num_records` times starting at offset
`HEADER_LENGTH`, returning the decoded records in file order.  The
unpacked format tag and version are bound but never used: the code
performs no magic validation. -/
def parse_logfile (transaction_log : List Nat) :
    Except ParseError (List Record) :=
  match unpackHeader transaction_log with
  | .error e => .error e
  | .ok (_log_format, _version, num_records) =>
    match parseRecords transaction_log HEADER_LENGTH num_records with
    | .error e => .error e
    | .ok (rs, _) => .ok rs

/-- Python truthiness of the optional `user_id` argument: `None` and `0`
are falsy, every other integer truthy. -/
def truthy : Option Nat → Bool
  | none => false
  | some u => decide (u ≠ 0)

/-- Round-half-to-even to an integer (the rounding Python `round` uses). -/
def roundHalfEven (q : ℚ) : ℤ :=
  let f := ⌊q⌋
  let r := q - f
  if r < 1 / 2 then f
  else if 1 / 2 < r then f + 1
  else if f % 2 = 0 then f else f + 1

/-- Python `round(x, 2)`: round-half-to-even at two decimal places. -/
def round2 (q : ℚ) : ℚ := (roundHalfEven (100 * q) : ℚ) / 100

/-- The contribution of one row to the `Dollar Amount` column sum:
pandas `.sum()` skips missing (`None`) entries, so they contribute 0. -/
def dollarOrZero (r : Record) : ℚ := (r.amount).getD 0

/-- `total_transaction_amount(transactions, transaction_type, user_id)`:
if `user_id` is truthy, keep only that user's rows; then keep rows whose
record type matches; sum their dollar amounts and round to 2 places. -/
def total_transaction_amount (transactions : List Record)
    (transaction_type : RecordType) (user_id : Option Nat := none) : ℚ :=
  let ts := if truthy user_id then
      transactions.filter (fun r => some r.user_id == user_id)
    else transactions
  round2 (((ts.filter (fun r => r.recordType == transaction_type)).map
    dollarOrZero).sum)

/-- `num_autopay_changes(transactions, change_type)`: the number of rows
whose record type equals `change_type` (pandas `.count()` over the
filtered, never-null `Record Type` column is its length). -/
def num_autopay_changes (transactions : List Record)
    (change_type : RecordType) : Nat :=
  (transactions.filter (fun r => r.recordType == change_type)).length

/-- Big-endian 4-byte encoding of a u32 (for stating header claims). -/
def encodeU32be (n : Nat) : List Nat :=
  [n / 2 ^ 24 % 256, n / 2 ^ 16 % 256, n / 2 ^ 8 % 256, n % 256]

/-- Spec-side description of the sum aggregation, written from the spec's
words: the sum of the amounts of exactly those records whose kind equals
the given kind and, when a user id is provided, whose user id equals it
(missing amounts contributing 0), rounded to 2 decimal places. -/
def sumAmountSpec (records : List Record) (kind : RecordType)
    (user_id : Option Nat) : ℚ :=
  round2 (((records.filter (fun r => r.recordType == kind &&
      match user_id with
      | none => true
      | some u => r.user_id == u)).map dollarOrZero).sum)

/-- IEEE-754 binary64 round-to-nearest-even of a rational: the nearest
double, obtained by rounding the significand `|q| / 2^e` half-to-even
at the unit-in-the-last-place exponent `e = ⌊log₂ |q|⌋ - 52`.  Exact on
the normal range; overflow to infinity and subnormal underflow are not
modelled (the dollar amounts of this format live far inside the normal
range). -/
def fp64Round (q : ℚ) : ℚ :=
  if q = 0 then 0
  else
    (if q < 0 then -1 else 1) *
      (roundHalfEven (|q| / 2 ^ (Int.log 2 |q| - 52)) : ℚ) *
        2 ^ (Int.log 2 |q| - 52)

/-- Sequential float64 summation, as the numpy/pandas `.sum()` of the
`Dollar Amount` column performs it: start from 0.0 and round the
running total back to a double after each addition. -/
def fp64Sum (l : List ℚ) : ℚ := l.foldl (fun acc x => fp64Round (acc + x)) 0

/-- `total_transaction_amount` with the summation performed the way the
program performs it: the float64 column is summed by sequential
binary64 additions, each result rounded by `fp64Round`.  The function
`total_transaction_amount` above idealizes this sum as exact rational
addition; this variant keeps the rounding and settles the
order-(in)dependence question. -/
def total_transaction_amount_fp64 (transactions : List Record)
    (transaction_type : RecordType) (user_id : Option Nat := none) : ℚ :=
  let ts := if truthy user_id then
      transactions.filter (fun r => some r.user_id == user_id)
    else transactions
  round2 (fp64Sum ((ts.filter
    (fun r => r.recordType == transaction_type)).map dollarOrZero))

/-! ### Helper lemmas -/

theorem round2_zero : round2 0 = 0 := by
  norm_num [round2, roundHalfEven]

theorem roundHalfEven_intCast (n : ℤ) : roundHalfEven (n : ℚ) = n := by
  norm_num [roundHalfEven]

theorem roundHalfEven_add_half_even (n : ℤ) (hn : n % 2 = 0) :
    roundHalfEven ((n : ℚ) + 1 / 2) = n := by
  have hfl : ⌊(n : ℚ) + 1 / 2⌋ = n := by
    rw [Int.floor_int_add]
    norm_num
  unfold roundHalfEven
  dsimp only
  rw [hfl]
  have hr : ((n : ℚ) + 1 / 2) - ((n : ℤ) : ℚ) = 1 / 2 := by ring
  rw [hr, if_neg (by norm_num), if_neg (by norm_num), if_pos hn]

theorem round2_intCast (n : ℤ) : round2 (n : ℚ) = n := by
  unfold round2
  rw [show (100 : ℚ) * (n : ℚ) = ((100 * n : ℤ) : ℚ) by push_cast; ring,
    roundHalfEven_intCast]
  push_cast
  rw [mul_div_cancel_left₀ _ (by norm_num)]

/-- 10^16 is an even multiple of the ulp 2 at its binade, so it is an
exactly representable double. -/
theorem fp64Round_big_even :
    fp64Round 10000000000000000 = 10000000000000000 := by
  have habs : |(10000000000000000 : ℚ)| = 10000000000000000 := by norm_num
  have hlogn : Nat.log 2 10000000000000000 = 53 :=
    Nat.log_eq_of_pow_le_of_lt_pow (by norm_num) (by norm_num)
  have hlog : Int.log 2 (10000000000000000 : ℚ) = 53 := by
    rw [show (10000000000000000 : ℚ) = ((10000000000000000 : ℕ) : ℚ) by
      norm_num, Int.log_natCast, hlogn]
    norm_num
  unfold fp64Round
  rw [if_neg (by norm_num), if_neg (by norm_num), habs, hlog,
    show ((53 : ℤ) - 52) = 1 by norm_num, zpow_one,
    show (10000000000000000 : ℚ) / 2 = ((5000000000000000 : ℤ) : ℚ) by
      norm_num,
    roundHalfEven_intCast]
  norm_num

/-- 10^16 + 1 is a tie between 10^16 and 10^16 + 2; nearest-even picks
10^16 (even significand), so adding 1.0 to 1e16 is absorbed. -/
theorem fp64Round_big_succ :
    fp64Round 10000000000000001 = 10000000000000000 := by
  have habs : |(10000000000000001 : ℚ)| = 10000000000000001 := by norm_num
  have hlogn : Nat.log 2 10000000000000001 = 53 :=
    Nat.log_eq_of_pow_le_of_lt_pow (by norm_num) (by norm_num)
  have hlog : Int.log 2 (10000000000000001 : ℚ) = 53 := by
    rw [show (10000000000000001 : ℚ) = ((10000000000000001 : ℕ) : ℚ) by
      norm_num, Int.log_natCast, hlogn]
    norm_num
  unfold fp64Round
  rw [if_neg (by norm_num), if_neg (by norm_num), habs, hlog,
    show ((53 : ℤ) - 52) = 1 by norm_num, zpow_one,
    show (10000000000000001 : ℚ) / 2 = ((5000000000000000 : ℤ) : ℚ) + 1 / 2 by
      norm_num,
    roundHalfEven_add_half_even 5000000000000000 (by norm_num)]
  norm_num

/-- 10^16 + 2 is an exactly representable double (even multiple of the
ulp 2 at its binade). -/
theorem fp64Round_big_two :
    fp64Round 10000000000000002 = 10000000000000002 := by
  have habs : |(10000000000000002 : ℚ)| = 10000000000000002 := by norm_num
  have hlogn : Nat.log 2 10000000000000002 = 53 :=
    Nat.log_eq_of_pow_le_of_lt_pow (by norm_num) (by norm_num)
  have hlog : Int.log 2 (10000000000000002 : ℚ) = 53 := by
    rw [show (10000000000000002 : ℚ) = ((10000000000000002 : ℕ) : ℚ) by
      norm_num, Int.log_natCast, hlogn]
    norm_num
  unfold fp64Round
  rw [if_neg (by norm_num), if_neg (by norm_num), habs, hlog,
    show ((53 : ℤ) - 52) = 1 by norm_num, zpow_one,
    show (10000000000000002 : ℚ) / 2 = ((5000000000000001 : ℤ) : ℚ) by
      norm_num,
    roundHalfEven_intCast]
  norm_num

theorem fp64Round_one : fp64Round 1 = 1 := by
  have hlog : Int.log 2 (1 : ℚ) = 0 := Int.log_one_right 2
  unfold fp64Round
  rw [if_neg (by norm_num), if_neg (by norm_num), abs_one, hlog,
    show ((0 : ℤ) - 52) = -52 by norm_num,
    show (1 : ℚ) / 2 ^ (-52 : ℤ) = ((4503599627370496 : ℤ) : ℚ) by
      norm_num [zpow_neg],
    roundHalfEven_intCast]
  norm_num [zpow_neg]

theorem fp64Round_two : fp64Round 2 = 2 := by
  have habs : |(2 : ℚ)| = 2 := by norm_num
  have hlogn : Nat.log 2 2 = 1 :=
    Nat.log_eq_of_pow_le_of_lt_pow (by norm_num) (by norm_num)
  have hlog : Int.log 2 (2 : ℚ) = 1 := by
    rw [show (2 : ℚ) = ((2 : ℕ) : ℚ) by norm_num, Int.log_natCast, hlogn]
    norm_num
  unfold fp64Round
  rw [if_neg (by norm_num), if_neg (by norm_num), habs, hlog,
    show ((1 : ℤ) - 52) = -51 by norm_num,
    show (2 : ℚ) / 2 ^ (-51 : ℤ) = ((4503599627370496 : ℤ) : ℚ) by
      norm_num [zpow_neg],
    roundHalfEven_intCast]
  norm_num [zpow_neg]

/-- The float64 sum of [1e16, 1, 1] in file order: each `+ 1` is a tie
rounded back, so the small amounts are absorbed. -/
theorem fp64Sum_desc : fp64Sum [10000000000000000, 1, 1] =
    10000000000000000 := by
  unfold fp64Sum
  rw [List.foldl_cons, List.foldl_cons, List.foldl_cons, List.foldl_nil]
  rw [show (0 : ℚ) + 10000000000000000 = 10000000000000000 by norm_num,
    fp64Round_big_even,
    show (10000000000000000 : ℚ) + 1 = 10000000000000001 by norm_num,
    fp64Round_big_succ,
    show (10000000000000000 : ℚ) + 1 = 10000000000000001 by norm_num,
    fp64Round_big_succ]

/-- The float64 sum of the same amounts smallest-first: 1 + 1 = 2 is
exact, and 1e16 + 2 is exactly representable, so nothing is lost. -/
theorem fp64Sum_asc : fp64Sum [1, 1, 10000000000000000] =
    10000000000000002 := by
  unfold fp64Sum
  rw [List.foldl_cons, List.foldl_cons, List.foldl_cons, List.foldl_nil]
  rw [show (0 : ℚ) + 1 = 1 by norm_num, fp64Round_one,
    show (1 : ℚ) + 1 = 2 by norm_num, fp64Round_two,
    show (2 : ℚ) + 10000000000000000 = 10000000000000002 by norm_num,
    fp64Round_big_two]

/-! ### Claims about the aggregation functions -/

/-- C10: for every record sequence and transaction kind, calling
`total_transaction_amount` with `user_id = 0` returns the same result as
calling it with no `user_id` at all: a literal zero user id is falsy in
the `if user_id:` check, so no user filter is applied and the sum ranges
over all users. -/
theorem user_id_zero_is_no_filter (records : List Record) (kind : RecordType) :
    total_transaction_amount records kind (some 0) =
      total_transaction_amount records kind none := rfl

/-- C9 counterexample: order-independence fails for the sum aggregation
on the program, whose `.sum()` adds float64 values sequentially.  Over
the Debit amounts [1e16, 1, 1] the float64 sum is 10000000000000000 in
file order (each `+ 1.0` lands on a tie and rounds back to the even
1e16) but 10000000000000002 when the small amounts are added first:
`total_transaction_amount_fp64`, the variant of
`total_transaction_amount` that performs the program's float64
summation, distinguishes these two permuted record sequences. -/
theorem total_transaction_amount_fp64_order_counterexample :
    ([⟨DEBIT, 0, 1, some 10000000000000000⟩, ⟨DEBIT, 0, 1, some 1⟩,
      ⟨DEBIT, 0, 1, some 1⟩] : List Record).Perm
      [⟨DEBIT, 0, 1, some 1⟩, ⟨DEBIT, 0, 1, some 1⟩,
       ⟨DEBIT, 0, 1, some 10000000000000000⟩] ∧
    total_transaction_amount_fp64
      [⟨DEBIT, 0, 1, some 10000000000000000⟩, ⟨DEBIT, 0, 1, some 1⟩,
       ⟨DEBIT, 0, 1, some 1⟩] DEBIT none = 10000000000000000 ∧
    total_transaction_amount_fp64
      [⟨DEBIT, 0, 1, some 1⟩, ⟨DEBIT, 0, 1, some 1⟩,
       ⟨DEBIT, 0, 1, some 10000000000000000⟩] DEBIT none =
      10000000000000002 := by
  refine ⟨(List.reverse_perm _).symm, ?_, ?_⟩
  · have h : total_transaction_amount_fp64
        [⟨DEBIT, 0, 1, some 10000000000000000⟩, ⟨DEBIT, 0, 1, some 1⟩,
         ⟨DEBIT, 0, 1, some 1⟩] DEBIT none =
        round2 (fp64Sum [10000000000000000, 1, 1]) := by
      simp [total_transaction_amount_fp64, truthy, dollarOrZero]
    rw [h, fp64Sum_desc,
      show (10000000000000000 : ℚ) = ((10000000000000000 : ℤ) : ℚ) by
        norm_num, round2_intCast]
  · have h : total_transaction_amount_fp64
        [⟨DEBIT, 0, 1, some 1⟩, ⟨DEBIT, 0, 1, some 1⟩,
         ⟨DEBIT, 0, 1, some 10000000000000000⟩] DEBIT none =
        round2 (fp64Sum [1, 1, 10000000000000000]) := by
      simp [total_transaction_amount_fp64, truthy, dollarOrZero]
    rw [h, fp64Sum_asc,
      show (10000000000000002 : ℚ) = ((10000000000000002 : ℤ) : ℚ) by
        norm_num, round2_intCast]

/-- C9 (amended): both aggregations are deterministic, side-effect-free
and total over a valid record sequence (they are pure total functions
of their arguments, here as in the source), and `num_autopay_changes`
is furthermore order-independent: it returns the same count on every
permutation of the records.  `total_transaction_amount` is NOT
order-independent in general: its float64 summation makes the result
depend on the record order (see the counterexample). -/
theorem num_autopay_changes_order_independent (l₁ l₂ : List Record)
    (hp : l₁.Perm l₂) :
    ∀ k, num_autopay_changes l₁ k = num_autopay_changes l₂ k := by
  intro k
  unfold num_autopay_changes
  exact (hp.filter _).length_eq

/-- C9 witness: a concrete two-element sequence and its transposition,
queried for StartAutopay. -/
theorem num_autopay_changes_order_independent_witness :
    num_autopay_changes
        [⟨DEBIT, 3, 1, some 10⟩, ⟨START, 4, 2, none⟩] START =
      num_autopay_changes
        [⟨START, 4, 2, none⟩, ⟨DEBIT, 3, 1, some 10⟩] START :=
  num_autopay_changes_order_independent _ _
    (List.Perm.swap (⟨START, 4, 2, none⟩ : Record) ⟨DEBIT, 3, 1, some 10⟩ [])
    START

/-- C7 counterexample: with `user_id = some 0` the claim fails.  On the
single-record sequence `[Debit, user 1, amount 10]`, filtering to Debit
with user id 0 should, per the claim, sum over the records whose user id
equals 0 — there are none, so the claimed result is 0 — but the code's
falsy `if user_id:` check drops the filter and returns 10. -/
theorem total_transaction_amount_user_zero_counterexample :
    total_transaction_amount [⟨DEBIT, 0, 1, some 10⟩] DEBIT (some 0) = 10 ∧
    sumAmountSpec [⟨DEBIT, 0, 1, some 10⟩] DEBIT (some 0) = 0 := by
  constructor
  · have h10 : total_transaction_amount [⟨DEBIT, 0, 1, some 10⟩] DEBIT
        (some 0) = round2 10 := by
      simp [total_transaction_amount, truthy, dollarOrZero]
    rw [h10, round2, show ((100 : ℚ) * 10) = ((1000 : ℤ) : ℚ) by norm_num,
      roundHalfEven_intCast]
    norm_num
  · simp [sumAmountSpec, round2, roundHalfEven, dollarOrZero]

/-- C7 (amended): for every record sequence, transaction kind, and
optional user id OTHER than literal zero, `total_transaction_amount`
returns the sum of the amounts of exactly the records whose kind matches
(and whose user id matches, when one is provided), missing amounts
contributing 0, rounded to 2 decimal places; and it returns 0, not an
error, when no record matches.  (A zero user id instead disables the
user filter — see the C10 theorem.) -/
theorem total_transaction_amount_eq_spec (records : List Record)
    (kind : RecordType) (user_id : Option Nat) (h : user_id ≠ some 0) :
    total_transaction_amount records kind user_id =
      sumAmountSpec records kind user_id ∧
    (records.filter (fun r => r.recordType == kind &&
        match user_id with
        | none => true
        | some u => r.user_id == u) = [] →
      total_transaction_amount records kind user_id = 0) := by
  have main : total_transaction_amount records kind user_id =
      sumAmountSpec records kind user_id := by
    unfold total_transaction_amount sumAmountSpec
    match user_id with
    | none => simp [truthy]
    | some u =>
      have hu : u ≠ 0 := fun hu0 => h (by rw [hu0])
      dsimp only
      rw [if_pos (by simp [truthy, hu]), List.filter_filter]
      refine congrArg round2 (congrArg List.sum (congrArg _ ?_))
      refine List.filter_congr (fun r _ => ?_)
      cases hb : (r.recordType == kind) <;>
        cases hc : (r.user_id == u) <;>
          simp_all
  refine ⟨main, fun hfil => ?_⟩
  rw [main]
  unfold sumAmountSpec
  rw [hfil]
  simpa using round2_zero

/-- C7 witness for the amended claim, at a nonzero user id. -/
theorem total_transaction_amount_eq_spec_witness :
    (total_transaction_amount [⟨DEBIT, 0, 1, some 10⟩] DEBIT (some 1) =
      sumAmountSpec [⟨DEBIT, 0, 1, some 10⟩] DEBIT (some 1) ∧
    (List.filter (fun r => r.recordType == DEBIT && (r.user_id == 1))
        [(⟨DEBIT, 0, 1, some 10⟩ : Record)] = [] →
      total_transaction_amount [⟨DEBIT, 0, 1, some 10⟩] DEBIT (some 1) = 0)) :=
  total_transaction_amount_eq_spec [⟨DEBIT, 0, 1, some 10⟩] DEBIT (some 1)
    (by decide)

/-- C8: for every input whose header declares `record_count = 0`, the
decode succeeds with an empty record sequence, and over the empty
sequence every aggregate query returns 0 (`total_transaction_amount` for
any kind and optional user, `num_autopay_changes` for any kind). -/
theorem empty_log_decode_and_aggregates (buf t : List Nat) (v : Nat)
    (hh : unpackHeader buf = .ok (t, v, 0)) :
    parse_logfile buf = .ok [] ∧
    (∀ k uid, total_transaction_amount [] k uid = 0) ∧
    (∀ k, num_autopay_changes [] k = 0) := by
  refine ⟨?_, fun k uid => ?_, fun k => ?_⟩
  · unfold parse_logfile
    rw [hh]
    rfl
  · unfold total_transaction_amount
    simp only [List.filter_nil, ite_self, List.map_nil, List.sum_nil]
    exact round2_zero
  · rfl

/-- C8 witness: the 9-byte header `MPS7`, version 1, record count 0. -/
theorem empty_log_decode_and_aggregates_witness :
    parse_logfile [77, 80, 83, 55, 1, 0, 0, 0, 0] = .ok [] ∧
    (∀ k uid, total_transaction_amount [] k uid = 0) ∧
    (∀ k, num_autopay_changes [] k = 0) :=
  empty_log_decode_and_aggregates [77, 80, 83, 55, 1, 0, 0, 0, 0]
    [77, 80, 83, 55] 1 rfl

/-! ### Byte-level helper lemmas for the decoder -/

theorem pySlice_length (buf : List Nat) (a b : Nat) :
    (pySlice buf a b).length = min (b - a) (buf.length - a) := by
  simp [pySlice]

theorem pySlice_append (buf extra : List Nat) (a b : Nat) (hab : a ≤ b)
    (hb : b ≤ buf.length) :
    pySlice (buf ++ extra) a b = pySlice buf a b := by
  unfold pySlice
  rw [List.drop_append_of_le_length (le_trans hab hb),
    List.take_append_of_le_length (by simp; omega)]

theorem pySlice_getD_zero (buf : List Nat) (a b : Nat) (_ha : a < buf.length)
    (hab : a < b) :
    (pySlice buf a b).getD 0 0 = buf.getD a 0 := by
  unfold pySlice
  rw [List.getD_eq_getElem?_getD, List.getD_eq_getElem?_getD,
    List.getElem?_take_of_lt (by omega), List.getElem?_drop]
  simp

theorem RECORD_TYPES_eq_none (t : Nat) (h : 4 ≤ t) : RECORD_TYPES t = none := by
  obtain ⟨m, rfl⟩ : ∃ m, t = m + 4 := ⟨t - 4, by omega⟩
  rfl

theorem recordType_cases (rt : RecordType) :
    rt = DEBIT ∨ rt = CREDIT ∨ rt = START ∨ rt = END := by
  cases rt
  · exact Or.inl rfl
  · exact Or.inr (Or.inl rfl)
  · exact Or.inr (Or.inr (Or.inl rfl))
  · exact Or.inr (Or.inr (Or.inr rfl))

/-- A successfully decoded record is in one of the two layouts of the
format: a 21-byte monetary record with its amount decoded from the
trailing 8 bytes, or a 13-byte autopay record with no amount. -/
theorem parseRecord_cases (buf : List Nat) (s : Nat) (r : Record) (stop : Nat)
    (h : parseRecord buf s = .ok (r, stop)) :
    ((r.recordType = DEBIT ∨ r.recordType = CREDIT) ∧
      stop = s + BASE_RECORD_LENGTH + DOLLAR_AMOUNT_LENGTH ∧
      r.amount = some (f64FromBits (beVal (pySlice buf
        (s + BASE_RECORD_LENGTH)
        (s + BASE_RECORD_LENGTH + DOLLAR_AMOUNT_LENGTH))))) ∨
    ((r.recordType = START ∨ r.recordType = END) ∧
      stop = s + BASE_RECORD_LENGTH ∧ r.amount = none) := by
  simp only [parseRecord] at h
  split at h
  case isTrue hlen =>
    split at h
    case h_1 => simp at h
    case h_2 rt hm =>
      split at h
      case isTrue hdc =>
        split at h
        case isTrue h8 =>
          have h' := Except.ok.inj h
          have hr := congrArg Prod.fst h'
          have hstop := congrArg Prod.snd h'
          simp only at hr hstop
          left
          refine ⟨?_, hstop.symm, ?_⟩
          · rw [← hr]; exact hdc
          · rw [← hr]
        case isFalse h8 => simp at h
      case isFalse hdc =>
        have h' := Except.ok.inj h
        have hr := congrArg Prod.fst h'
        have hstop := congrArg Prod.snd h'
        simp only at hr hstop
        right
        rcases recordType_cases rt with hc | hc | hc | hc
        · exact absurd (Or.inl hc) hdc
        · exact absurd (Or.inr hc) hdc
        · exact ⟨by rw [← hr]; exact Or.inl hc, hstop.symm, by rw [← hr]⟩
        · exact ⟨by rw [← hr]; exact Or.inr hc, hstop.symm, by rw [← hr]⟩
  case isFalse => simp at h

theorem parseRecord_stop_ge (buf : List Nat) (s : Nat) (r : Record)
    (stop : Nat) (h : parseRecord buf s = .ok (r, stop)) : s ≤ stop := by
  rcases parseRecord_cases buf s r stop h with ⟨-, hstop, -⟩ | ⟨-, hstop, -⟩ <;>
    omega

/-- The record loop step fails with `struct.error` when fewer than 13
bytes remain at the record start. -/
theorem parseRecord_shortBase (buf : List Nat) (p : Nat)
    (h : buf.length < p + BASE_RECORD_LENGTH) :
    parseRecord buf p = .error .structError := by
  simp only [parseRecord]
  rw [if_neg]
  rw [pySlice_length]
  unfold BASE_RECORD_LENGTH at h ⊢
  omega

/-- The record loop step fails with `KeyError` carrying the tag when the
13 base bytes are available but the tag is not a dictionary key. -/
theorem parseRecord_unknownTag (buf : List Nat) (p : Nat)
    (hbase : p + BASE_RECORD_LENGTH ≤ buf.length)
    (htag : RECORD_TYPES (buf.getD p 0) = none) :
    parseRecord buf p = .error (.keyError (buf.getD p 0)) := by
  have hlen : (pySlice buf p (p + BASE_RECORD_LENGTH)).length =
      BASE_RECORD_LENGTH := by
    rw [pySlice_length]; omega
  have hget : (pySlice buf p (p + BASE_RECORD_LENGTH)).getD 0 0 =
      buf.getD p 0 := by
    apply pySlice_getD_zero buf p _ (by unfold BASE_RECORD_LENGTH at hbase; omega)
    unfold BASE_RECORD_LENGTH; omega
  simp only [parseRecord]
  rw [if_pos hlen, hget, htag]

/-- The record loop step fails with `struct.error` when the tag is
Debit/Credit but fewer than 8 further bytes remain for the amount. -/
theorem parseRecord_amountShort (buf : List Nat) (p : Nat) (rt : RecordType)
    (hbase : p + BASE_RECORD_LENGTH ≤ buf.length)
    (htag : RECORD_TYPES (buf.getD p 0) = some rt)
    (hdc : rt = DEBIT ∨ rt = CREDIT)
    (hshort : buf.length < p + BASE_RECORD_LENGTH + DOLLAR_AMOUNT_LENGTH) :
    parseRecord buf p = .error .structError := by
  have hlen : (pySlice buf p (p + BASE_RECORD_LENGTH)).length =
      BASE_RECORD_LENGTH := by
    rw [pySlice_length]; omega
  have hget : (pySlice buf p (p + BASE_RECORD_LENGTH)).getD 0 0 =
      buf.getD p 0 := by
    apply pySlice_getD_zero buf p _ (by unfold BASE_RECORD_LENGTH at hbase; omega)
    unfold BASE_RECORD_LENGTH; omega
  simp only [parseRecord]
  rw [if_pos hlen, hget, htag]
  dsimp only
  rw [if_pos hdc, if_neg]
  rw [pySlice_length]
  omega

/-- A successful run of the record loop returns exactly as many records
as it was asked for. -/
theorem parseRecords_len (buf : List Nat) :
    ∀ (n s : Nat) (rs : List Record) (p : Nat),
      parseRecords buf s n = .ok (rs, p) → rs.length = n := by
  intro n
  induction n with
  | zero =>
    intro s rs p h
    simp only [parseRecords, Except.ok.injEq, Prod.mk.injEq] at h
    obtain ⟨rfl, rfl⟩ := h
    rfl
  | succ n ih =>
    intro s rs p h
    simp only [parseRecords] at h
    cases hr : parseRecord buf s with
    | error e => simp [hr] at h
    | ok x =>
      obtain ⟨r, stop⟩ := x
      simp only [hr] at h
      cases hs : parseRecords buf stop n with
      | error e => simp [hs] at h
      | ok y =>
        obtain ⟨rs1, p1⟩ := y
        simp only [hs, Except.ok.injEq, Prod.mk.injEq] at h
        obtain ⟨rfl, rfl⟩ := h
        simp [ih stop rs1 p1 hs]

/-- Splitting a run of the record loop: running `i + k` iterations first
runs `i`, and on success continues with `k` more from where it stopped. -/
theorem parseRecords_ok_then (buf : List Nat) :
    ∀ (i s : Nat) (rs : List Record) (p k : Nat),
      parseRecords buf s i = .ok (rs, p) →
      parseRecords buf s (i + k) =
        match parseRecords buf p k with
        | .error e => .error e
        | .ok (rs2, q) => .ok (rs ++ rs2, q) := by
  intro i
  induction i with
  | zero =>
    intro s rs p k h
    simp only [parseRecords, Except.ok.injEq, Prod.mk.injEq] at h
    obtain ⟨rfl, rfl⟩ := h
    rw [Nat.zero_add]
    cases hk : parseRecords buf s k with
    | error e => rfl
    | ok z => obtain ⟨rs2, q⟩ := z; simp
  | succ i ih =>
    intro s rs p k h
    have e1 : i + 1 + k = (i + k) + 1 := by omega
    rw [e1]
    simp only [parseRecords] at h ⊢
    cases hr : parseRecord buf s with
    | error e => simp [hr] at h
    | ok x =>
      obtain ⟨r, stop⟩ := x
      simp only [hr] at h ⊢
      cases hs : parseRecords buf stop i with
      | error e => simp [hs] at h
      | ok y =>
        obtain ⟨rs1, p1⟩ := y
        simp only [hs, Except.ok.injEq, Prod.mk.injEq] at h
        obtain ⟨rfl, rfl⟩ := h
        rw [ih stop rs1 p1 k hs]
        cases hk : parseRecords buf p1 k with
        | error e => rfl
        | ok z => obtain ⟨rs2, q⟩ := z; simp

/-- A record that decodes successfully still decodes identically after
appending extra bytes to the buffer: the step reads only in-range slices. -/
theorem parseRecord_append (buf extra : List Nat) (s : Nat) (r : Record)
    (stop : Nat) (h : parseRecord buf s = .ok (r, stop)) :
    parseRecord (buf ++ extra) s = .ok (r, stop) := by
  simp only [parseRecord] at h ⊢
  split at h
  case isFalse => simp at h
  case isTrue hlen =>
    have hb : s + BASE_RECORD_LENGTH ≤ buf.length := by
      rw [pySlice_length] at hlen
      unfold BASE_RECORD_LENGTH at hlen ⊢
      omega
    rw [pySlice_append buf extra s (s + BASE_RECORD_LENGTH) (by omega) hb,
      if_pos hlen]
    split at h
    case h_1 hm => exact h
    case h_2 rt hm =>
      split at h
      case isTrue hdc =>
        rw [if_pos hdc]
        split at h
        case isFalse h8 =>
          simp at h
        case isTrue h8 =>
          have hb2 : s + BASE_RECORD_LENGTH + DOLLAR_AMOUNT_LENGTH ≤
              buf.length := by
            rw [pySlice_length] at h8
            unfold BASE_RECORD_LENGTH DOLLAR_AMOUNT_LENGTH at h8 ⊢
            omega
          rw [pySlice_append buf extra (s + BASE_RECORD_LENGTH)
            (s + BASE_RECORD_LENGTH + DOLLAR_AMOUNT_LENGTH) (by omega) hb2,
            if_pos h8]
          exact h
      case isFalse hdc =>
        rw [if_neg hdc]
        exact h

/-- A successful run of the record loop is unchanged by trailing bytes. -/
theorem parseRecords_append (buf extra : List Nat) :
    ∀ (n s : Nat) (rs : List Record) (p : Nat),
      parseRecords buf s n = .ok (rs, p) →
      parseRecords (buf ++ extra) s n = .ok (rs, p) := by
  intro n
  induction n with
  | zero =>
    intro s rs p h
    simpa only [parseRecords] using h
  | succ n ih =>
    intro s rs p h
    simp only [parseRecords] at h ⊢
    cases hr : parseRecord buf s with
    | error e => simp [hr] at h
    | ok x =>
      obtain ⟨r, stop⟩ := x
      simp only [hr] at h
      simp only [parseRecord_append buf extra s r stop hr]
      cases hs : parseRecords buf stop n with
      | error e => simp [hs] at h
      | ok y =>
        obtain ⟨rs1, p1⟩ := y
        simp only [hs, Except.ok.injEq, Prod.mk.injEq] at h
        obtain ⟨rfl, rfl⟩ := h
        simp only [ih stop rs1 p1 hs]

/-- A successfully unpacked header is unchanged by trailing bytes. -/
theorem unpackHeader_append (buf extra : List Nat) (x : List Nat × Nat × Nat)
    (h : unpackHeader buf = .ok x) :
    unpackHeader (buf ++ extra) = .ok x := by
  simp only [unpackHeader] at h ⊢
  split at h
  case isFalse => simp at h
  case isTrue hlen =>
    have h9 : HEADER_LENGTH ≤ buf.length := by
      rw [pySlice_length] at hlen
      unfold HEADER_LENGTH at hlen ⊢
      omega
    rw [pySlice_append buf extra 0 HEADER_LENGTH (by omega) h9, if_pos hlen]
    exact h

/-- Slices that start at or after the 4-byte header tag do not depend on
the tag bytes. -/
theorem pySlice_prefix_irrel (m₁ m₂ rest : List Nat) (a b : Nat)
    (h₁ : m₁.length = 4) (h₂ : m₂.length = 4) (ha : 4 ≤ a) :
    pySlice (m₁ ++ rest) a b = pySlice (m₂ ++ rest) a b := by
  unfold pySlice
  have e₁ : (m₁ ++ rest).drop a = rest.drop (a - 4) := by
    conv_lhs => rw [show a = m₁.length + (a - 4) by omega]
    exact List.drop_append _
  have e₂ : (m₂ ++ rest).drop a = rest.drop (a - 4) := by
    conv_lhs => rw [show a = m₂.length + (a - 4) by omega]
    exact List.drop_append _
  rw [e₁, e₂]

/-- The record decoding step never looks at the 4 tag bytes. -/
theorem parseRecord_prefix_irrel (m₁ m₂ rest : List Nat) (s : Nat)
    (h₁ : m₁.length = 4) (h₂ : m₂.length = 4) (hs : 4 ≤ s) :
    parseRecord (m₁ ++ rest) s = parseRecord (m₂ ++ rest) s := by
  simp only [parseRecord]
  rw [pySlice_prefix_irrel m₁ m₂ rest s (s + BASE_RECORD_LENGTH) h₁ h₂ hs,
    pySlice_prefix_irrel m₁ m₂ rest (s + BASE_RECORD_LENGTH)
      (s + BASE_RECORD_LENGTH + DOLLAR_AMOUNT_LENGTH) h₁ h₂ (by omega)]

/-- The record loop never looks at the 4 tag bytes. -/
theorem parseRecords_prefix_irrel (m₁ m₂ rest : List Nat)
    (h₁ : m₁.length = 4) (h₂ : m₂.length = 4) :
    ∀ (n s : Nat), 4 ≤ s →
      parseRecords (m₁ ++ rest) s n = parseRecords (m₂ ++ rest) s n := by
  intro n
  induction n with
  | zero => intro s _; rfl
  | succ n ih =>
    intro s hs
    simp only [parseRecords]
    rw [parseRecord_prefix_irrel m₁ m₂ rest s h₁ h₂ hs]
    cases hr : parseRecord (m₂ ++ rest) s with
    | error e => rfl
    | ok x =>
      obtain ⟨r, stop⟩ := x
      have hstop : s ≤ stop := parseRecord_stop_ge (m₂ ++ rest) s r stop hr
      dsimp only
      rw [ih stop (by omega)]

/-- Header unpacking on a buffer split as 4 tag bytes plus the rest: the
tag bytes are returned verbatim, and everything else the decode uses
(version byte, record count, the success condition itself) depends only
on the rest. -/
theorem unpackHeader_split (m rest : List Nat) (hm : m.length = 4) :
    unpackHeader (m ++ rest) =
      if 5 ≤ rest.length then
        .ok (m, rest.getD 0 0, beVal ((rest.take 5).drop 1))
      else
        .error .structError := by
  have hslice : pySlice (m ++ rest) 0 HEADER_LENGTH = m ++ rest.take 5 := by
    unfold pySlice HEADER_LENGTH
    rw [List.drop_zero, Nat.sub_zero, List.take_append_eq_append_take,
      List.take_of_length_le (by omega), hm]
  simp only [unpackHeader]
  rw [hslice]
  by_cases h5 : 5 ≤ rest.length
  · have e1 : (m ++ rest.take 5).take 4 = m := by
      rw [List.take_append_of_le_length (by omega),
        show (4 : Nat) = m.length from hm.symm, List.take_length]
    have e2 : (m ++ rest.take 5).getD 4 0 = rest.getD 0 0 := by
      rw [List.getD_eq_getElem?_getD, List.getD_eq_getElem?_getD,
        List.getElem?_append_right (by omega), hm,
        Nat.sub_self, List.getElem?_take_of_lt (by omega)]
    have e3 : (m ++ rest.take 5).drop 5 = (rest.take 5).drop 1 := by
      have h' := @List.drop_append Nat m (rest.take 5) 1
      rw [hm] at h'
      simpa using h'
    have e4 : ((rest.take 5).drop 1).take 4 = (rest.take 5).drop 1 := by
      apply List.take_of_length_le
      simp
    rw [if_pos (by simp [hm, HEADER_LENGTH]; omega), if_pos h5, e1, e2, e3, e4]
  · rw [if_neg (by simp [hm, HEADER_LENGTH]; omega), if_neg h5]

/-- Every record in a successful run of the record loop was produced by a
successful `parseRecord` call at some offset. -/
theorem parseRecords_mem (buf : List Nat) :
    ∀ (n s : Nat) (rs : List Record) (p : Nat),
      parseRecords buf s n = .ok (rs, p) → ∀ r ∈ rs,
        ∃ s' stop, parseRecord buf s' = .ok (r, stop) := by
  intro n
  induction n with
  | zero =>
    intro s rs p h
    simp only [parseRecords, Except.ok.injEq, Prod.mk.injEq] at h
    obtain ⟨rfl, rfl⟩ := h
    intro r hr
    simp at hr
  | succ n ih =>
    intro s rs p h
    simp only [parseRecords] at h
    cases hr0 : parseRecord buf s with
    | error e => simp [hr0] at h
    | ok x =>
      obtain ⟨r0, stop⟩ := x
      simp only [hr0] at h
      cases hs : parseRecords buf stop n with
      | error e => simp [hs] at h
      | ok y =>
        obtain ⟨rs1, p1⟩ := y
        simp only [hs, Except.ok.injEq, Prod.mk.injEq] at h
        obtain ⟨rfl, rfl⟩ := h
        intro r hr
        rcases List.mem_cons.mp hr with rfl | hr1
        · exact ⟨s, stop, hr0⟩
        · exact ih stop rs1 p1 hs r hr1

theorem recordType_not_both (rt : RecordType) (h1 : rt = DEBIT ∨ rt = CREDIT)
    (h2 : rt = START ∨ rt = END) : False := by
  rcases h1 with h1 | h1 <;> rcases h2 with h2 | h2 <;>
    exact absurd (h1.symm.trans h2) (by decide)

/-- Decoding the 4-byte big-endian encoding of a `u32` gives it back. -/
theorem beVal_encodeU32be (n : Nat) (h : n < 2 ^ 32) :
    beVal (encodeU32be n) = n := by
  unfold beVal encodeU32be
  simp only [List.foldl]
  omega

/-- C1 counterexample: a buffer whose first 4 bytes are `AAAA` (not
`MPS7`) decodes SUCCESSFULLY, returning a record — the code never raises
an `InvalidMagic` error (no magic validation exists), refuting the claim
at this input. -/
theorem magic_not_validated_counterexample :
    parse_logfile [65, 65, 65, 65, 1, 0, 0, 0, 1,
        2, 0, 0, 0, 5, 0, 0, 0, 0, 0, 0, 0, 9] =
      .ok [⟨START, 5, 9, none⟩] := rfl

/-- C1 (amended): `parse_logfile` performs no magic validation at all:
the 4 tag bytes are unpacked but never compared to `MPS7`, and the
decode result is identical for any two 4-byte prefixes over the same
remaining bytes.  In particular a wrong magic does not fail, and records
are read as usual. -/
theorem parse_logfile_ignores_magic (m₁ m₂ rest : List Nat)
    (h₁ : m₁.length = 4) (h₂ : m₂.length = 4) :
    parse_logfile (m₁ ++ rest) = parse_logfile (m₂ ++ rest) := by
  unfold parse_logfile
  rw [unpackHeader_split m₁ rest h₁, unpackHeader_split m₂ rest h₂]
  by_cases h5 : 5 ≤ rest.length
  · rw [if_pos h5, if_pos h5]
    dsimp only
    rw [parseRecords_prefix_irrel m₁ m₂ rest h₁ h₂ _ HEADER_LENGTH
      (by unfold HEADER_LENGTH; omega)]
  · rw [if_neg h5, if_neg h5]

/-- C1 witness: `AAAA` and `MPS7` prefixes over the same body. -/
theorem parse_logfile_ignores_magic_witness :
    parse_logfile ([65, 65, 65, 65] ++ [1, 0, 0, 0, 0]) =
      parse_logfile ([77, 80, 83, 55] ++ [1, 0, 0, 0, 0]) :=
  parse_logfile_ignores_magic [65, 65, 65, 65] [77, 80, 83, 55]
    [1, 0, 0, 0, 0] rfl rfl

/-- C2: if the first `i` records decode fine (ending at offset `p`,
with `i` less than the declared count), the 13 base bytes of record `i`
are available, and its kind tag byte is outside `{0x00..0x03}`, then the
whole decode fails with the `KeyError` carrying that tag (the code's
realization of `UnknownRecordKind(tag)`): the record is not skipped, the
tag is not coerced, and no record sequence is returned. -/
theorem unknown_tag_fails_decode (buf t : List Nat) (v cnt i : Nat)
    (rs : List Record) (p : Nat)
    (hh : unpackHeader buf = .ok (t, v, cnt))
    (hok : parseRecords buf HEADER_LENGTH i = .ok (rs, p))
    (hi : i < cnt)
    (hbase : p + BASE_RECORD_LENGTH ≤ buf.length)
    (htag : 4 ≤ buf.getD p 0) :
    parse_logfile buf = .error (.keyError (buf.getD p 0)) := by
  have hkey : parseRecord buf p = .error (.keyError (buf.getD p 0)) :=
    parseRecord_unknownTag buf p hbase (RECORD_TYPES_eq_none _ htag)
  have hcont : parseRecords buf p (cnt - i) =
      .error (.keyError (buf.getD p 0)) := by
    obtain ⟨m, hm⟩ : ∃ m, cnt - i = m + 1 := ⟨cnt - i - 1, by omega⟩
    rw [hm]
    simp only [parseRecords]
    rw [hkey]
  have hall : parseRecords buf HEADER_LENGTH cnt =
      .error (.keyError (buf.getD p 0)) := by
    rw [show cnt = i + (cnt - i) by omega,
      parseRecords_ok_then buf i HEADER_LENGTH rs p (cnt - i) hok, hcont]
  unfold parse_logfile
  rw [hh]
  dsimp only
  rw [hall]

/-- C2 witness: a valid header declaring one record whose tag byte is
`0x04`. -/
theorem unknown_tag_fails_decode_witness :
    parse_logfile [77, 80, 83, 55, 1, 0, 0, 0, 1,
        4, 0, 0, 0, 5, 0, 0, 0, 0, 0, 0, 0, 9] =
      .error (.keyError ([77, 80, 83, 55, 1, 0, 0, 0, 1,
        4, 0, 0, 0, 5, 0, 0, 0, 0, 0, 0, 0, 9].getD 9 0)) :=
  unknown_tag_fails_decode
    [77, 80, 83, 55, 1, 0, 0, 0, 1, 4, 0, 0, 0, 5, 0, 0, 0, 0, 0, 0, 0, 9]
    [77, 80, 83, 55] 1 1 0 [] 9 rfl rfl (by decide) (by decide) (by decide)

/-- C3: if the first `i` records decode fine (ending at offset `p`, with
`i` less than the declared count) but the buffer is exhausted before the
next record — fewer than its 13 base bytes remain, or its tag is
Debit/Credit and fewer than the further 8 amount bytes remain — then the
whole decode fails with `struct.error` (the code's realization of
`TruncatedLog`) rather than returning a shorter record sequence. -/
theorem truncated_log_fails_decode (buf t : List Nat) (v cnt i : Nat)
    (rs : List Record) (p : Nat)
    (hh : unpackHeader buf = .ok (t, v, cnt))
    (hok : parseRecords buf HEADER_LENGTH i = .ok (rs, p))
    (hi : i < cnt)
    (hshort : buf.length < p + BASE_RECORD_LENGTH ∨
      (∃ rt, RECORD_TYPES (buf.getD p 0) = some rt ∧
        (rt = DEBIT ∨ rt = CREDIT) ∧
        buf.length < p + BASE_RECORD_LENGTH + DOLLAR_AMOUNT_LENGTH)) :
    parse_logfile buf = .error .structError := by
  have hkey : parseRecord buf p = .error .structError := by
    rcases hshort with h | ⟨rt, hrt, hdc, hs⟩
    · exact parseRecord_shortBase buf p h
    · by_cases hb : p + BASE_RECORD_LENGTH ≤ buf.length
      · exact parseRecord_amountShort buf p rt hb hrt hdc hs
      · exact parseRecord_shortBase buf p (by omega)
  have hcont : parseRecords buf p (cnt - i) = .error .structError := by
    obtain ⟨m, hm⟩ : ∃ m, cnt - i = m + 1 := ⟨cnt - i - 1, by omega⟩
    rw [hm]
    simp only [parseRecords]
    rw [hkey]
  have hall : parseRecords buf HEADER_LENGTH cnt = .error .structError := by
    rw [show cnt = i + (cnt - i) by omega,
      parseRecords_ok_then buf i HEADER_LENGTH rs p (cnt - i) hok, hcont]
  unfold parse_logfile
  rw [hh]
  dsimp only
  rw [hall]

/-- C3 witness: the spec's own example — a header declaring 5 records
over a body holding only 4 well-formed (autopay) records. -/
theorem truncated_log_fails_decode_witness :
    parse_logfile [77, 80, 83, 55, 1, 0, 0, 0, 5,
        2, 0, 0, 0, 1, 0, 0, 0, 0, 0, 0, 0, 0,
        2, 0, 0, 0, 2, 0, 0, 0, 0, 0, 0, 0, 0,
        2, 0, 0, 0, 3, 0, 0, 0, 0, 0, 0, 0, 0,
        2, 0, 0, 0, 4, 0, 0, 0, 0, 0, 0, 0, 0] =
      .error .structError :=
  truncated_log_fails_decode
    [77, 80, 83, 55, 1, 0, 0, 0, 5,
      2, 0, 0, 0, 1, 0, 0, 0, 0, 0, 0, 0, 0,
      2, 0, 0, 0, 2, 0, 0, 0, 0, 0, 0, 0, 0,
      2, 0, 0, 0, 3, 0, 0, 0, 0, 0, 0, 0, 0,
      2, 0, 0, 0, 4, 0, 0, 0, 0, 0, 0, 0, 0]
    [77, 80, 83, 55] 1 5 4
    [⟨START, 1, 0, none⟩, ⟨START, 2, 0, none⟩,
      ⟨START, 3, 0, none⟩, ⟨START, 4, 0, none⟩] 61
    rfl rfl (by decide) (Or.inl (by decide))

/-- C4: every successfully decoded record is laid out per the format:
a Debit/Credit record consumes exactly 21 bytes (1 + 4 + 8 + 8) and its
amount is the value decoded from the trailing 8 big-endian bytes; a
StartAutopay/EndAutopay record consumes exactly 13 bytes and has no
amount.  Hence, in every record of a successful `parse_logfile` run,
the amount is present iff the kind is Debit or Credit. -/
theorem record_byte_layout :
    (∀ (buf : List Nat) (s : Nat) (r : Record) (stop : Nat),
      parseRecord buf s = .ok (r, stop) →
      (((r.recordType = DEBIT ∨ r.recordType = CREDIT) →
        stop = s + 21 ∧
        r.amount = some (f64FromBits (beVal (pySlice buf (s + 13) (s + 21))))) ∧
      ((r.recordType = START ∨ r.recordType = END) →
        stop = s + 13 ∧ r.amount = none) ∧
      (r.amount.isSome = true ↔
        (r.recordType = DEBIT ∨ r.recordType = CREDIT)))) ∧
    (∀ (buf : List Nat) (rs : List Record),
      parse_logfile buf = .ok rs → ∀ r ∈ rs,
        r.amount.isSome = true ↔
          (r.recordType = DEBIT ∨ r.recordType = CREDIT)) := by
  constructor
  · intro buf s r stop h
    rcases parseRecord_cases buf s r stop h with
      ⟨hdc, hstop, hamt⟩ | ⟨hae, hstop, hamt⟩
    · refine ⟨fun _ => ⟨?_, ?_⟩,
        fun hae => (recordType_not_both r.recordType hdc hae).elim,
        ⟨fun _ => hdc, fun _ => by rw [hamt]; rfl⟩⟩
      · rw [hstop]
        unfold BASE_RECORD_LENGTH DOLLAR_AMOUNT_LENGTH
        omega
      · exact hamt
    · refine ⟨fun hdc => (recordType_not_both r.recordType hdc hae).elim,
        fun _ => ⟨?_, hamt⟩,
        ⟨fun habs => by rw [hamt] at habs; simp at habs,
          fun hdc => (recordType_not_both r.recordType hdc hae).elim⟩⟩
      rw [hstop]
      rfl
  · intro buf rs h r hr
    unfold parse_logfile at h
    cases hh : unpackHeader buf with
    | error e => rw [hh] at h; simp at h
    | ok x =>
      obtain ⟨t, vc⟩ := x
      obtain ⟨v, cnt⟩ := vc
      rw [hh] at h
      dsimp only at h
      cases hp : parseRecords buf HEADER_LENGTH cnt with
      | error e => rw [hp] at h; simp at h
      | ok y =>
        obtain ⟨rs1, p⟩ := y
        rw [hp] at h
        simp only [Except.ok.injEq] at h
        subst h
        obtain ⟨s', stop, hrec⟩ :=
          parseRecords_mem buf cnt HEADER_LENGTH rs1 p hp r hr
        rcases parseRecord_cases buf s' r stop hrec with
          ⟨hdc, -, hamt⟩ | ⟨hae, -, hamt⟩
        · exact ⟨fun _ => hdc, fun _ => by rw [hamt]; rfl⟩
        · exact ⟨fun habs => by rw [hamt] at habs; simp at habs,
            fun hdc => (recordType_not_both r.recordType hdc hae).elim⟩

/-- C4 witness: the StartAutopay record of a concrete log starts at
offset 9 and ends at offset 22 = 9 + 13, with no amount. -/
theorem record_byte_layout_witness :
    (22 : Nat) = 9 + 13 ∧ (⟨START, 5, 9, none⟩ : Record).amount = none :=
  ⟨((record_byte_layout.1 [77, 80, 83, 55, 1, 0, 0, 0, 1, 2, 0, 0, 0, 5,
        0, 0, 0, 0, 0, 0, 0, 9] 9 ⟨START, 5, 9, none⟩ 22 rfl).2.1
      (Or.inl rfl)).1,
    ((record_byte_layout.1 [77, 80, 83, 55, 1, 0, 0, 0, 1, 2, 0, 0, 0, 5,
        0, 0, 0, 0, 0, 0, 0, 9] 9 ⟨START, 5, 9, none⟩ 22 rfl).2.1
      (Or.inl rfl)).2⟩

/-- C5: a buffer that starts with a well-formed 9-byte header — any
4-byte tag, a version byte, and the 4-byte big-endian encoding of the
record count — unpacks to exactly that (tag, version, count) triple, and
`parse_logfile` then runs the record loop from byte offset 9
(`HEADER_LENGTH`). -/
theorem header_decoding_exact (tag : List Nat) (ver cnt : Nat)
    (rest : List Nat) (htag : tag.length = 4) (hcnt : cnt < 2 ^ 32) :
    unpackHeader (tag ++ (ver :: (encodeU32be cnt ++ rest))) =
      .ok (tag, ver, cnt) ∧
    parse_logfile (tag ++ (ver :: (encodeU32be cnt ++ rest))) =
      (match parseRecords (tag ++ (ver :: (encodeU32be cnt ++ rest)))
          HEADER_LENGTH cnt with
      | .error e => .error e
      | .ok (rs, _) => .ok rs) := by
  have hrest5 : (5 : Nat) ≤ (ver :: (encodeU32be cnt ++ rest)).length := by
    simp [encodeU32be]
  have htake : ((ver :: (encodeU32be cnt ++ rest)).take 5).drop 1 =
      encodeU32be cnt := by
    simp [encodeU32be]
  have hver : (ver :: (encodeU32be cnt ++ rest)).getD 0 0 = ver := rfl
  have h1 : unpackHeader (tag ++ (ver :: (encodeU32be cnt ++ rest))) =
      .ok (tag, ver, cnt) := by
    rw [unpackHeader_split tag _ htag, if_pos hrest5, hver, htake,
      beVal_encodeU32be cnt hcnt]
  refine ⟨h1, ?_⟩
  unfold parse_logfile
  rw [h1]

/-- C5 witness: the literal `MPS7` tag, version 1, record count 0. -/
theorem header_decoding_exact_witness :
    unpackHeader ([77, 80, 83, 55] ++ (1 :: (encodeU32be 0 ++ []))) =
      .ok ([77, 80, 83, 55], 1, 0) ∧
    parse_logfile ([77, 80, 83, 55] ++ (1 :: (encodeU32be 0 ++ []))) =
      (match parseRecords ([77, 80, 83, 55] ++ (1 :: (encodeU32be 0 ++ [])))
          HEADER_LENGTH 0 with
      | .error e => .error e
      | .ok (rs, _) => .ok rs) :=
  header_decoding_exact [77, 80, 83, 55] 1 0 [] rfl (by norm_num)

/-- C6: when a decode succeeds, appending arbitrary trailing bytes to
the buffer neither fails nor changes the result, and the number of
records returned equals exactly the header's declared count: the
header's count, not the buffer length, decides how much is read. -/
theorem trailing_bytes_ignored (buf extra : List Nat) (rs : List Record)
    (h : parse_logfile buf = .ok rs) :
    parse_logfile (buf ++ extra) = .ok rs ∧
    (∀ t v cnt, unpackHeader buf = .ok (t, v, cnt) → rs.length = cnt) := by
  unfold parse_logfile at h
  cases hh : unpackHeader buf with
  | error e => rw [hh] at h; simp at h
  | ok x =>
    obtain ⟨t, vc⟩ := x
    obtain ⟨v, cnt⟩ := vc
    rw [hh] at h
    dsimp only at h
    cases hp : parseRecords buf HEADER_LENGTH cnt with
    | error e => rw [hp] at h; simp at h
    | ok y =>
      obtain ⟨rs1, p⟩ := y
      rw [hp] at h
      simp only [Except.ok.injEq] at h
      subst h
      constructor
      · unfold parse_logfile
        rw [unpackHeader_append buf extra _ hh]
        dsimp only
        rw [parseRecords_append buf extra cnt HEADER_LENGTH rs1 p hp]
      · intro t' v' cnt' hh'
        obtain ⟨rfl, rfl, rfl⟩ : t = t' ∧ v = v' ∧ cnt = cnt' := by
          simpa using Except.ok.inj hh'
        exact parseRecords_len buf _ HEADER_LENGTH rs1 p hp

/-- C6 witness: a one-record log with three junk bytes appended. -/
theorem trailing_bytes_ignored_witness :
    parse_logfile ([77, 80, 83, 55, 1, 0, 0, 0, 1,
        2, 0, 0, 0, 5, 0, 0, 0, 0, 0, 0, 0, 9] ++ [9, 9, 9]) =
      .ok [⟨START, 5, 9, none⟩] ∧
    (∀ t v cnt, unpackHeader [77, 80, 83, 55, 1, 0, 0, 0, 1,
        2, 0, 0, 0, 5, 0, 0, 0, 0, 0, 0, 0, 9] = .ok (t, v, cnt) →
      ([(⟨START, 5, 9, none⟩ : Record)]).length = cnt) :=
  trailing_bytes_ignored
    [77, 80, 83, 55, 1, 0, 0, 0, 1, 2, 0, 0, 0, 5, 0, 0, 0, 0, 0, 0, 0, 9]
    [9, 9, 9] [⟨START, 5, 9, none⟩] rfl
